import Mathlib

/-!
# Verification of NeMo components

Shallow embeddings of the algorithmic content of five source files of the
repository, together with theorems settling the specification claims:

* `nemo/collections/asr/parts/submodules/stream_wrapper.py`
  (streaming ring-buffer state management),
* `examples/nlp/machine_translation/punctuation_infer/punctuate_capitalize_nmt.py`
  (segment windowing and label voting),
* `nemo/collections/asr/models/tsvad_models.py`
  (multi-scale clustering-embedding bookkeeping, diarization model forward),
* `nemo/collections/nlp/modules/common/prompt_table.py`
  (soft-prompt embedding tables),
* `nemo_text_processing/text_normalization/verbalizers/punctuation.py`
  (punctuation verbalizer FST).

Tensors are represented as (nested) lists along the relevant dimensions, with
`ℚ` for floating-point entries; fallible code returns `Except`.
-/

namespace StreamWrapper

/-- Shallow embedding of `StreamWrapper._streaming_internal_state` in the
`samplewise_inference = True` branch (`stream_wrapper.py` lines 331-350) with a
built state buffer, for a single batch element.  The state buffer `states`
(`self.states`) and the input `input` (`inputs[0]`) are lists of rows along
the time dimension; `rb` is `self.ring_buffer_size_in_time_dim`.  Line 337
checks `input.shape[1] != 1` and raises `ValueError`; lines 341-344 then form
`memory = cat(self.states[:, 1:rb, :], input)` (the slice keeps time indices
`1 ≤ i < rb`, i.e. `(states.take rb).drop 1`) without observable effect; line
347, `self.states = self.states * 0 + memory`, assigns a plain Tensor (the
result of the arithmetic) over the attribute that `_build_states` registered
as the `nn.Parameter` named `states` (line 273), which `nn.Module.__setattr__`
rejects with `TypeError` — so every time-dimension-1 call raises there.
Execution never reaches line 350, whose `self.cell(*inputs)` would itself
raise `AttributeError`: no `cell` attribute is ever defined, the wrapped
module being stored as `self.inner_module` (line 124). -/
def streamingInternalStateSamplewise (rb : Nat)
    (states input : List α) : Except String (List α) :=
  if input.length ≠ 1 then
    .error "ValueError: inputs[0].shape[1] must be 1"
  else
    let _memory := (states.take rb).drop 1 ++ input
    .error "TypeError: cannot assign a Tensor as parameter 'states'"

end StreamWrapper

namespace TsVad

/-- The fields of the `pytorch_lightning` `Trainer` that
`EncDecDiarLabelModel.__init__` reads. -/
structure Trainer where
  num_nodes : Nat
  num_gpus : Nat

/-- Embedding of the `world_size` computation in `EncDecDiarLabelModel.__init__`
(`tsvad_models.py` lines 461-463): `self.world_size = 1` followed by
`if trainer is not None: self.world_size = trainer.num_nodes * trainer.num_gpus`. -/
def initWorldSize (trainer : Option Trainer) : Nat :=
  let world_size := 1
  match trainer with
  | some t => t.num_nodes * t.num_gpus
  | none => world_size

/-- The hard-coded frame budget `length = 3000` of `EncDecDiarLabelModel.forward`
(`tsvad_models.py` line 609). -/
def truncLength : Nat := 3000

/-- The slice `processed_signal[:, :, :length]` (`tsvad_models.py` line 617):
the processed signal is a batch of feature matrices (nested lists in
`[batch, dim, time]` order) and the slice keeps the first `truncLength` frames
of every time row. -/
def truncateSignal (processed : List (List (List ℚ))) : List (List (List ℚ)) :=
  processed.map fun chans => chans.map fun row => row.take truncLength

/-- Embedding of `EncDecDiarLabelModel.forward` (`tsvad_models.py` lines
607-620).  The preprocessor (`self.preprocessor`) and the TS-VAD module
(`self.tsvad`) are abstract functions; the code sets `length = 3000`, runs the
preprocessor, truncates `processed_signal[:, :, :length]`, replaces the
reported lengths with `length * torch.ones_like(processed_signal_len)`, and
returns `self.tsvad(audio_signal=..., length=..., ivectors=...)`. -/
def forward {σ ι π : Type} (preprocessor : σ × List Nat → List (List (List ℚ)) × List Nat)
    (tsvad : List (List (List ℚ)) → List Nat → ι → π)
    (input_signal : σ) (input_signal_length : List Nat) (ivectors : ι) : π :=
  let p := preprocessor (input_signal, input_signal_length)
  let processed_signal := truncateSignal p.1
  let processed_signal_len := p.2.map fun _ => truncLength
  tsvad processed_signal processed_signal_len ivectors

/-- Helper for `dedupFirst`: drop the values already seen. -/
def dedupFirstAux (seen : List Int) : List Int → List Int
  | [] => []
  | x :: xs => if x ∈ seen then dedupFirstAux seen xs else x :: dedupFirstAux (x :: seen) xs

/-- The distinct values of a list in order of first occurrence — the order in
which `collections.Counter` (the engine of `statistics.mode`) enumerates the
values of its argument. -/
def dedupFirst (xs : List Int) : List Int := dedupFirstAux [] xs

/-- Insert a value into a sorted list of integers. -/
def insertSorted (a : Int) : List Int → List Int
  | [] => [a]
  | b :: bs => if a ≤ b then a :: b :: bs else b :: insertSorted a bs

/-- Insertion sort on integers. -/
def sortInts : List Int → List Int
  | [] => []
  | a :: as => insertSorted a (sortInts as)

/-- `list(set(xs))` for a list of small non-negative machine integers (cluster
labels and segment indices): the distinct values of `xs`; CPython enumerates
such a set in ascending hash-table order, modelled as the sorted list of the
distinct values.  (No property proved below depends on this order.) -/
def pySetList (xs : List Int) : List Int :=
  sortInts (dedupFirst xs)

/-- The numpy boolean-mask selection `labels[mapping == seg]` for two integer
arrays of equal length. -/
def maskSelect (labels mapping : List Int) (seg : Int) : List Int :=
  (labels.zip mapping).filterMap fun q => if q.2 = seg then some q.1 else none

/-- The scan inside `statistics.mode`: walk the candidate values keeping the
current best, replacing it only on strictly greater multiplicity in `xs`. -/
def modeLoop (xs : List Int) : Int → List Int → Int
  | best, [] => best
  | best, c :: cs => modeLoop xs (if xs.count best < xs.count c then c else best) cs

/-- `statistics.mode` (Python ≥ 3.8, `from statistics import mode` at the top
of `tsvad_models.py`): the first value, in order of first occurrence, of
maximal multiplicity.  `mode` raises `StatisticsError` on empty data; the `0`
default is never reached below because the function is only applied to
non-empty selections (every segment index comes from the mapping itself). -/
def pymode (xs : List Int) : Int :=
  match dedupFirst xs with
  | [] => 0
  | c :: cs => modeLoop xs c cs

/-- The inner loop of `assign_labels_to_longer_segs` (`tsvad_models.py` lines
245-248) for one coarser scale: for each distinct segment index
`seg_idx` of `uniq_scale_mapping_dict[scale_index]`, the mode of
`base_scale_clus_label[uniq_scale_mapping_dict[scale_index] == seg_idx]`. -/
def assignScale (base_labels mapping : List Int) : List Int :=
  (pySetList mapping).map fun seg => pymode (maskSelect base_labels mapping seg)

/-- One session of `assign_labels_to_longer_segs`: the labels stored at each
scale index `0 ≤ k < scale_n` — the base-scale labels themselves at
`scale_n - 1` (line 243) and `assignScale` at every coarser scale (lines
244-249); `maps.getD k []` is `uniq_scale_mapping_dict[scale_index]`. -/
def assignSession (scale_n : Nat) (base_labels : List Int) (maps : List (List Int)) :
    List (List Int) :=
  (List.range scale_n).map fun k =>
    if k = scale_n - 1 then base_labels else assignScale base_labels (maps.getD k [])

/-- The loop over `session_scale_mapping_dict.items()` (`tsvad_models.py`
lines 237-249).  The base labels of a session are
`[x[-1] for x in base_clus_label_dict[uniq_id]]`, where each entry of
`base_clus_label_dict` is a `[stt, end, label]` triple; a `uniq_id` missing
from `base_clus_label_dict` raises `KeyError` (the `except` branch drops into
the `ipdb` debugger, modelled as an error). -/
def assignSessions (scale_n : Nat) (base : List (String × List (ℚ × ℚ × Int))) :
    List (String × List (List Int)) → Except String (List (String × List (List Int)))
  | [] => .ok []
  | (u, maps) :: rest =>
    match base.find? (fun e => e.1 == u) with
    | none => .error "KeyError (the except branch drops into ipdb)"
    | some q =>
      match assignSessions scale_n base rest with
      | .error e => .error e
      | .ok done => .ok ((u, assignSession scale_n (q.2.map fun r => r.2.2) maps) :: done)

/-- Embedding of `ClusterEmbedding.assign_labels_to_longer_segs`
(`tsvad_models.py` lines 235-250).  Dictionaries are insertion-ordered
association lists; the result is indexed by scale (`new_clus_label_dict[k]` is
entry `k` of the outer list) and holds, per session, the cluster labels
assigned at that scale. -/
def assign_labels_to_longer_segs (scale_n : Nat)
    (base_clus_label_dict : List (String × List (ℚ × ℚ × Int)))
    (session_scale_mapping_dict : List (String × List (List Int))) :
    Except String (List (List (String × List Int))) :=
  match assignSessions scale_n base_clus_label_dict session_scale_mapping_dict with
  | .error e => .error e
  | .ok sessions =>
    .ok ((List.range scale_n).map fun k => sessions.map fun q => (q.1, q.2.getD k []))

/-- `torch.zeros(dim)`: one column of the `avg_embs` matrix. -/
def vecZeros (dim : Nat) : List ℚ := List.replicate dim 0

/-- The pointwise sum of a list of `dim`-vectors. -/
def vecSum (rows : List (List ℚ)) (dim : Nat) : List ℚ :=
  rows.foldl (fun a b => a.zipWith (· + ·) b) (vecZeros dim)

/-- `torch.mean(selected_embs, dim=0)`: the pointwise mean of the selected
embedding rows. -/
def vecMean (rows : List (List ℚ)) (dim : Nat) : List ℚ :=
  (vecSum rows dim).map fun x => x / (rows.length : ℚ)

/-- The numpy/torch boolean-mask row selection
`emb_tensor[label_array == spk_idx]`. -/
def maskSelectRows (embs : List (List ℚ)) (labels : List Int) (spk : Int) :
    List (List ℚ) :=
  (embs.zip labels).filterMap fun q => if q.2 = spk then some q.1 else none

/-- Embedding of the per-`(scale_index, uniq_id)` body of
`ClusterEmbedding.get_clus_emb` (`tsvad_models.py` lines 270-279):
`clus_label_list` is the session's cluster-label list at this scale,
`emb_tensor` its embedding rows.  The code forms `spk_set = set(...)`, asserts
`len(spk_set) <= self.max_num_of_spks` (`AssertionError` otherwise), allocates
`avg_embs = torch.zeros(dim, max_num_of_spks)` — represented here by its list
of `max_num_of_spks` columns of length `dim` — and for each `spk_idx` in the
set assigns column `spk_idx` the mean of the rows selected by
`label_array == spk_idx`.  A label outside `[-max_num_of_spks,
max_num_of_spks)` makes the column assignment `avg_embs[:, spk_idx]` raise
`IndexError` (torch accepts negative indices by wrapping, hence the `emod`). -/
def get_clus_emb_avg (max_num_of_spks dim : Nat) (clus_label_list : List Int)
    (emb_tensor : List (List ℚ)) : Except String (List (List ℚ)) :=
  let spk_set := pySetList clus_label_list
  if spk_set.length ≤ max_num_of_spks then
    spk_set.foldlM (fun avg spk =>
      if -(max_num_of_spks : Int) ≤ spk ∧ spk < (max_num_of_spks : Int) then
        .ok (avg.set (spk % (max_num_of_spks : Int)).toNat
          (vecMean (maskSelectRows emb_tensor clus_label_list spk) dim))
      else
        .error "IndexError: speaker label out of bounds for avg_embs")
      (List.replicate max_num_of_spks (vecZeros dim))
  else
    .error "AssertionError: max_num_of_spks is smaller than the actual number of speakers"

/-- `m` is a mode of `sel`: it occurs in `sel` and no value of `sel` occurs
more often. -/
def isModeOf (m : Int) (sel : List Int) : Prop :=
  m ∈ sel ∧ ∀ y ∈ sel, sel.count y ≤ sel.count m

end TsVad

namespace PromptTable

/-- The registered index buffer of `PromptEmbedding.__init__`
(`prompt_table.py` line 163):
`torch.LongTensor(list(range(self.total_soft_tokens)))`. -/
def promptEmbeddingIndices (total_soft_tokens : Nat) : List Nat :=
  List.range total_soft_tokens

/-- `torch.nn.Dropout(p)` applied with dropout probability `p = 0.0`
(`prompt_table.py` line 164): with `p = 0` no entry is zeroed and the
`1/(1-p)` rescaling is by 1, so the layer is the identity map. -/
def dropoutZero (x : List (List ℚ)) : List (List ℚ) := x

/-- Embedding of `PromptEmbedding.forward` (`prompt_table.py` lines 166-171)
with dropout probability 0.  `weight` is the embedding table
`self.prompt_embeddings.weight`, a list of `total_soft_tokens` rows of length
`hidden_size`; the lookup `self.prompt_embeddings(self.indices)` selects
`weight[i]` for each index `i` of the buffer, and the result is passed through
`self.embedding_dropout`. -/
def promptEmbeddingForward (weight : List (List ℚ)) (total_soft_tokens : Nat) :
    List (List ℚ) :=
  dropoutZero ((promptEmbeddingIndices total_soft_tokens).map fun i => weight.getD i [])

/-- The mutable state of a `PromptTable` module (`prompt_table.py` lines
39-40): `self.prompt_table`, an insertion-ordered dictionary from task names to
prompt-embedding tables, and `self.task_id_num_to_name`, a dictionary from task
id numbers to task names. -/
structure State where
  prompt_table : List (String × List (List ℚ))
  task_id_num_to_name : List (Nat × String)

/-- Embedding of `PromptTable.remove_prompt` (`prompt_table.py` lines 56-68).
Its first statement, `if taskname not in prompt_table: return`, reads the bare
name `prompt_table` — not `self.prompt_table` — and the loop below likewise
reads the bare name `task_id_num_to_name`.  Neither name has a local or
module-level binding (the module's globals are the imports, `HAVE_APEX`,
`__all__` and the two classes), so the interpreter raises `NameError` at the
first statement, on every call, before any state is touched. -/
def removePrompt (_s : State) (_taskname : String) : Except String State :=
  .error "NameError: name 'prompt_table' is not defined"

end PromptTable

namespace PunctuateCapitalize

/-- The `while` loop of `split_into_segments`
(`punctuate_capitalize_nmt.py` lines 168-172) for one query: while
`segment_start + max_seq_length < len(words)`, append
`words[segment_start : segment_start + max_seq_length]` to the segments, the
query index to `query_indices`, `segment_start` to `start_word_i`, and advance
`segment_start` by `step`.  Each query is a list of words (`query.split()`);
a segment is the corresponding word slice (`' '.join` omitted).  The loop is
phrased with a fuel argument; since every iteration requires
`segment_start < len(words)` and advances `segment_start` by `step ≥ 1`,
`fuel = len(words)` iterations always suffice.  The final `segment_start` is
returned because the Python variable lives outside the `for` loop over queries
and carries over from one query to the next. -/
def windowLoop (words : List String) (max_seq_length step q_i : Nat) :
    Nat → Nat → List (List String) × List Nat × List Nat × Nat
  | 0, segment_start => ([], [], [], segment_start)
  | fuel + 1, segment_start =>
    if segment_start + max_seq_length < words.length then
      let rest := windowLoop words max_seq_length step q_i fuel (segment_start + step)
      ((words.drop segment_start).take max_seq_length :: rest.1,
        q_i :: rest.2.1, segment_start :: rest.2.2.1, rest.2.2.2)
    else
      ([], [], [], segment_start)

/-- The `for q_i, query in enumerate(texts)` loop of `split_into_segments`
(lines 166-172), threading `segment_start` across queries exactly as the
Python code does (it is initialised once, on line 165, and never reset). -/
def splitGo (max_seq_length step : Nat) :
    List (List String) → Nat → Nat → List (List String) × List Nat × List Nat
  | [], _, _ => ([], [], [])
  | words :: rest, q_i, segment_start =>
    let w := windowLoop words max_seq_length step q_i words.length segment_start
    let r := splitGo max_seq_length step rest (q_i + 1) w.2.2.2
    (w.1 ++ r.1, w.2.1 ++ r.2.1, w.2.2.1 ++ r.2.2)

/-- Embedding of `split_into_segments` (`punctuate_capitalize_nmt.py` lines
163-173): returns `(segments, query_indices, start_word_i)`. -/
def split_into_segments (texts : List (List String)) (max_seq_length step : Nat) :
    List (List String) × List Nat × List Nat :=
  splitGo max_seq_length step texts 0 0

/-- Embedding of `update_label_counter` (`punctuate_capitalize_nmt.py` lines
199-206).  The counter is an insertion-ordered dictionary `label ↦ [count,
score]`, modelled as an association list.  For a label already present the
count is incremented and `min(word_ind_in_segment + 1, num_words_in_segment -
word_ind_in_segment - 1)` is added to the score; a new label starts with count
1 and that value as its score. -/
def update_label_counter (counter : List (String × Int × Int)) (lbl : String)
    (num_words_in_segment word_ind_in_segment : Int) : List (String × Int × Int) :=
  let add := min (word_ind_in_segment + 1) (num_words_in_segment - word_ind_in_segment - 1)
  if counter.any (fun e => e.1 == lbl) then
    counter.map fun e => if e.1 == lbl then (e.1, e.2.1 + 1, e.2.2 + add) else e
  else
    counter ++ [(lbl, 1, add)]

/-- The key of the first `sorted` call in `select_best_label` (line 254):
Python sorts ascending by `-x[1][1] / x[1][0]`, i.e. descending by the ratio
`score / count` (float division modelled exactly in `ℚ`). -/
def ratioLE (a b : String × Int × Int) : Bool :=
  decide ((b.2.2 : ℚ) / (b.2.1 : ℚ) ≤ (a.2.2 : ℚ) / (a.2.1 : ℚ))

/-- The key of the second `sorted` call (line 255): ascending by `-x[1][0]`,
i.e. descending by the count. -/
def countLE (a b : String × Int × Int) : Bool :=
  decide (b.2.1 ≤ a.2.1)

/-- Embedding of `select_best_label` (`punctuate_capitalize_nmt.py` lines
253-256).  The vote dictionary is an insertion-ordered association list
`label ↦ (count, score)`; Python's `sorted` is a stable sort, modelled by
`List.mergeSort`; the function sorts descending by `score / count`, re-sorts
stably descending by `count`, and returns the label of the first entry
(`votes[0][0]`; `none` models the `IndexError` on an empty dictionary). -/
def select_best_label (votes : List (String × Int × Int)) : Option String :=
  ((votes.mergeSort ratioLE).mergeSort countLE).head?.map (·.1)

end PunctuateCapitalize

namespace PunctuationFst

/-- A finite-state transducer, modelled extensionally as the set of
(input string, output string) pairs it relates. -/
abbrev Fst := Set (List Char × List Char)

/-- `pynutil.delete(s)` for a literal string `s`: consume exactly `s` on the
input side, emit nothing. -/
def del (s : List Char) : Fst := {q | q.1 = s ∧ q.2 = []}

/-- `pynutil.delete(pynini.closure(c))` for a character class `c`: consume any
(possibly empty) input string over the class, emit nothing. -/
def delAny (P : Char → Prop) : Fst := {q | (∀ a ∈ q.1, P a) ∧ q.2 = []}

/-- `pynini.closure(c, 1)` used as an acceptor inside the transducer: copy a
non-empty input string over the character class `c` to the output. -/
def keepPlus (P : Char → Prop) : Fst :=
  {q | q.1 ≠ [] ∧ (∀ a ∈ q.1, P a) ∧ q.2 = q.1}

/-- Concatenation of transducers (the `+` of pynini FSTs): split the input and
the output. -/
def cat (a b : Fst) : Fst :=
  {q | ∃ x1 y1 x2 y2, (x1, y1) ∈ a ∧ (x2, y2) ∈ b ∧ q.1 = x1 ++ x2 ∧ q.2 = y1 ++ y2}

/-- Modelled from the spec: `delete_space` of
`nemo_text_processing.text_normalization.graph_utils` (imported by
`punctuation.py` but not among the sources) deletes an optional run of space
characters from the input. -/
def delete_space : Fst := delAny (· = ' ')

/-- Modelled from the spec: `NEMO_NOT_QUOTE` of `graph_utils` accepts any
character other than the double quote. -/
def notQuote (c : Char) : Prop := c ≠ '"'

/-- Modelled from the spec: `NEMO_CHAR` of `graph_utils` accepts any single
character, so the difference `NEMO_CHAR - "}"` accepts any character other
than the closing curly brace. -/
def notRBrace (c : Char) : Prop := c ≠ '\x7d'

/-- Embedding of the transducer built in `PunctuationFst.__init__`
(`punctuation.py` lines 36-43): `pynutil.delete("name:") + delete_space +
pynutil.delete(quote) + pynini.closure(NEMO_NOT_QUOTE, 1) +
pynutil.delete(quote + " pause_length") + pynutil.delete(pynini.closure(
NEMO_CHAR - rbrace))`. -/
def punctuationFst : Fst :=
  cat (del "name:".toList)
    (cat delete_space
      (cat (del ['"'])
        (cat (keepPlus notQuote)
          (cat (del ('"' :: " pause_length".toList))
            (delAny notRBrace)))))

end PunctuationFst

namespace StreamWrapper

/-- C1 fails on the code: in `STREAM_INTERNAL_STATE_INFERENCE` mode with
`samplewise_inference = True` and a built state buffer (here `rb = 2`,
buffer rows `[0], [0]`), a forward call on an input of time dimension 1 does
not update the state and return the wrapped layer applied to the updated
buffer — it raises `TypeError` at the assignment over the registered
parameter `states` (stream_wrapper.py line 347), before ever reaching the
undefined `self.cell`; only the `ValueError` on a time dimension other than 1
behaves as the claim states. -/
theorem streaming_internal_state_samplewise_raises :
    streamingInternalStateSamplewise 2 [[(0 : ℚ)], [0]] [[1]] =
      .error "TypeError: cannot assign a Tensor as parameter 'states'" ∧
    streamingInternalStateSamplewise 2 [[(0 : ℚ)], [0]] [[1], [2]] =
      .error "ValueError: inputs[0].shape[1] must be 1" :=
  ⟨rfl, rfl⟩

end StreamWrapper

namespace TsVad

/-- C8: for every input batch, `EncDecDiarLabelModel.forward` truncates the
preprocessed feature sequence to its first 3000 frames (frame `i < 3000` is
kept unchanged, frame `i ≥ 3000` is dropped) and replaces every reported
sequence length with exactly 3000 — one entry per original length value,
regardless of the actual input lengths — before invoking the TS-VAD module on
exactly that truncated data. -/
theorem forward_truncates_to_3000 {σ ι π : Type}
    (preprocessor : σ × List Nat → List (List (List ℚ)) × List Nat)
    (tsvad : List (List (List ℚ)) → List Nat → ι → π)
    (input_signal : σ) (input_signal_length : List Nat) (ivectors : ι) :
    forward preprocessor tsvad input_signal input_signal_length ivectors =
      tsvad (truncateSignal (preprocessor (input_signal, input_signal_length)).1)
        (((preprocessor (input_signal, input_signal_length)).2).map fun _ => 3000)
        ivectors ∧
    (∀ chans ∈ truncateSignal (preprocessor (input_signal, input_signal_length)).1,
      ∀ row ∈ chans, ∃ orig ∈ (preprocessor (input_signal, input_signal_length)).1.flatten,
        row = orig.take 3000 ∧
        (∀ i : Nat, i < 3000 → row[i]? = orig[i]?) ∧
        (∀ i : Nat, 3000 ≤ i → row[i]? = none)) ∧
    (((preprocessor (input_signal, input_signal_length)).2.map fun _ => truncLength).length =
        (preprocessor (input_signal, input_signal_length)).2.length ∧
      ∀ n ∈ (preprocessor (input_signal, input_signal_length)).2.map fun _ => truncLength,
        n = 3000) := by
  refine ⟨rfl, ?_, by simp, by simp [truncLength]⟩
  intro chans hchans row hrow
  simp only [truncateSignal, List.mem_map] at hchans
  obtain ⟨chans₀, hchans₀, rfl⟩ := hchans
  simp only [List.mem_map] at hrow
  obtain ⟨orig, horig, rfl⟩ := hrow
  refine ⟨orig, List.mem_flatten.mpr ⟨chans₀, hchans₀, horig⟩, rfl, ?_, ?_⟩
  · intro i hi
    simp [List.getElem?_take, hi, truncLength]
  · intro i hi
    have : ¬ i < truncLength := by simp [truncLength]; omega
    simp [List.getElem?_take, this]

/-- C10: `EncDecDiarLabelModel.__init__` delegates distributed-training
topology to the trainer: for a non-`None` trainer it sets `world_size` to
`trainer.num_nodes * trainer.num_gpus`, and for `trainer = None` it sets
`world_size` to 1. -/
theorem init_world_size_spec (t : Trainer) :
    initWorldSize (some t) = t.num_nodes * t.num_gpus ∧
    initWorldSize none = 1 :=
  ⟨rfl, rfl⟩

theorem mem_dedupFirstAux (seen xs : List Int) (y : Int) :
    y ∈ dedupFirstAux seen xs ↔ y ∈ xs ∧ y ∉ seen := by
  induction xs generalizing seen with
  | nil => simp [dedupFirstAux]
  | cons x xs ih =>
    simp only [dedupFirstAux]
    by_cases hx : x ∈ seen
    · rw [if_pos hx, ih]
      simp only [List.mem_cons]
      constructor
      · rintro ⟨h1, h2⟩
        exact ⟨Or.inr h1, h2⟩
      · rintro ⟨h1 | h1, h2⟩
        · subst h1; exact absurd hx h2
        · exact ⟨h1, h2⟩
    · rw [if_neg hx]
      simp only [List.mem_cons, ih]
      constructor
      · rintro (rfl | ⟨h1, h2⟩)
        · exact ⟨Or.inl rfl, hx⟩
        · simp only [List.mem_cons, not_or] at h2
          exact ⟨Or.inr h1, h2.2⟩
      · rintro ⟨rfl | h1, h2⟩
        · exact Or.inl rfl
        · by_cases hyx : y = x
          · exact Or.inl hyx
          · exact Or.inr ⟨h1, by simp [hyx, h2]⟩

theorem mem_dedupFirst (xs : List Int) (y : Int) : y ∈ dedupFirst xs ↔ y ∈ xs := by
  rw [dedupFirst, mem_dedupFirstAux]
  simp

theorem mem_insertSorted (a y : Int) (l : List Int) :
    y ∈ insertSorted a l ↔ y = a ∨ y ∈ l := by
  induction l with
  | nil => simp [insertSorted]
  | cons b bs ih =>
    simp only [insertSorted]
    by_cases hab : a ≤ b
    · rw [if_pos hab]
      simp
    · rw [if_neg hab]
      simp only [List.mem_cons, ih]
      tauto

theorem mem_sortInts (y : Int) (l : List Int) : y ∈ sortInts l ↔ y ∈ l := by
  induction l with
  | nil => simp [sortInts]
  | cons a as ih =>
    simp only [sortInts, mem_insertSorted, List.mem_cons, ih]

theorem mem_pySetList (xs : List Int) (y : Int) : y ∈ pySetList xs ↔ y ∈ xs := by
  rw [pySetList, mem_sortInts, mem_dedupFirst]

theorem maskSelect_ne_nil (labels mapping : List Int) (seg : Int)
    (hlen : labels.length = mapping.length) (hseg : seg ∈ mapping) :
    maskSelect labels mapping seg ≠ [] := by
  induction mapping generalizing labels with
  | nil => simp at hseg
  | cons m ms ih =>
    cases labels with
    | nil => simp at hlen
    | cons l ls =>
      simp only [maskSelect, List.zip_cons_cons, List.filterMap_cons]
      by_cases hm : m = seg
      · rw [if_pos hm]
        simp
      · rw [if_neg hm]
        have hseg' : seg ∈ ms := by
          rcases List.mem_cons.mp hseg with h | h
          · exact absurd h.symm hm
          · exact h
        exact ih ls (by simpa using hlen) hseg'

theorem modeLoop_mem (xs : List Int) (best : Int) (cs : List Int) :
    modeLoop xs best cs = best ∨ modeLoop xs best cs ∈ cs := by
  induction cs generalizing best with
  | nil => left; rfl
  | cons c cs ih =>
    simp only [modeLoop]
    by_cases hcc : xs.count best < xs.count c
    · rw [if_pos hcc]
      rcases ih c with h | h
      · right
        rw [h]
        exact List.mem_cons_self _ _
      · right
        exact List.mem_cons_of_mem _ h
    · rw [if_neg hcc]
      rcases ih best with h | h
      · left
        exact h
      · right
        exact List.mem_cons_of_mem _ h

theorem modeLoop_count_ge (xs : List Int) (best : Int) (cs : List Int) :
    xs.count best ≤ xs.count (modeLoop xs best cs) ∧
    ∀ y ∈ cs, xs.count y ≤ xs.count (modeLoop xs best cs) := by
  induction cs generalizing best with
  | nil => exact ⟨le_refl _, by simp⟩
  | cons c cs ih =>
    simp only [modeLoop]
    set best' := if xs.count best < xs.count c then c else best with hb
    have h1 : xs.count best ≤ xs.count best' := by
      by_cases hcc : xs.count best < xs.count c
      · rw [hb, if_pos hcc]
        exact le_of_lt hcc
      · rw [hb, if_neg hcc]
    have h2 : xs.count c ≤ xs.count best' := by
      by_cases hcc : xs.count best < xs.count c
      · rw [hb, if_pos hcc]
      · rw [hb, if_neg hcc]
        omega
    obtain ⟨ih1, ih2⟩ := ih best'
    refine ⟨le_trans h1 ih1, ?_⟩
    intro y hy
    rcases List.mem_cons.mp hy with rfl | hy
    · exact le_trans h2 ih1
    · exact ih2 y hy

/-- `statistics.mode` of a non-empty list is a member of maximal
multiplicity. -/
theorem pymode_isModeOf (xs : List Int) (hne : xs ≠ []) :
    isModeOf (pymode xs) xs := by
  unfold pymode isModeOf
  cases hd : dedupFirst xs with
  | nil =>
    exfalso
    obtain ⟨x, xs', rfl⟩ := List.exists_cons_of_ne_nil hne
    have hx : x ∈ dedupFirst (x :: xs') :=
      (mem_dedupFirst _ _).mpr (List.mem_cons_self _ _)
    rw [hd] at hx
    simp at hx
  | cons c cs =>
    constructor
    · show modeLoop xs c cs ∈ xs
      rcases modeLoop_mem xs c cs with h | h
      · rw [h]
        exact (mem_dedupFirst _ _).mp (hd ▸ List.mem_cons_self c cs)
      · exact (mem_dedupFirst _ _).mp (hd ▸ List.mem_cons_of_mem c h)
    · show ∀ y ∈ xs, xs.count y ≤ xs.count (modeLoop xs c cs)
      intro y hy
      have hyd : y ∈ dedupFirst xs := (mem_dedupFirst _ _).mpr hy
      rw [hd] at hyd
      obtain ⟨h1, h2⟩ := modeLoop_count_ge xs c cs
      rcases List.mem_cons.mp hyd with rfl | hyc
      · exact h1
      · exact h2 y hyc

theorem assignSessions_ok (scale_n : Nat) (base : List (String × List (ℚ × ℚ × Int))) :
    ∀ (smap sessions : List (String × List (List Int))),
      assignSessions scale_n base smap = .ok sessions →
      sessions.length = smap.length ∧
      ∀ i : Nat, ∀ s ∈ smap[i]?, ∀ q ∈ base.find? (fun e => e.1 == s.1),
        sessions[i]? = some (s.1, assignSession scale_n (q.2.map fun r => r.2.2) s.2)
  | [], sessions, h => by
    simp only [assignSessions] at h
    cases h
    exact ⟨rfl, by intro i s hs; simp at hs⟩
  | (u, maps) :: rest, sessions, h => by
    simp only [assignSessions] at h
    cases hfind : base.find? (fun e => e.1 == u) with
    | none =>
      rw [hfind] at h
      cases h
    | some q =>
      rw [hfind] at h
      cases hrec : assignSessions scale_n base rest with
      | error e =>
        rw [hrec] at h
        cases h
      | ok done =>
        rw [hrec] at h
        cases h
        obtain ⟨hlen, hidx⟩ := assignSessions_ok scale_n base rest done hrec
        refine ⟨by simp [hlen], ?_⟩
        intro i s hs q' hq'
        cases i with
        | zero =>
          simp only [List.getElem?_cons_zero, Option.mem_def, Option.some.injEq] at hs
          subst hs
          simp only [Option.mem_def] at hq'
          rw [hfind] at hq'
          cases hq'
          simp
        | succ n =>
          simp only [List.getElem?_cons_succ] at hs ⊢
          exact hidx n s hs q' hq'

/-- C4: for every number of scales `scale_n ≥ 1`, base-scale cluster-label
dictionary and session scale-mapping dictionary on which
`assign_labels_to_longer_segs` succeeds, the result keeps the finest (base)
scale's labels unchanged — entry `scale_n - 1` stores, for each session, the
base labels `[x[-1] for x in base_clus_label_dict[uniq_id]]` as they are —
and, for every coarser scale `k < scale_n - 1`, stores for each distinct
segment index of the session's scale-`k` mapping the statistical mode
(majority vote) of the base-scale cluster labels of the base segments mapped
onto it. -/
theorem assign_labels_to_longer_segs_spec (scale_n : Nat)
    (base : List (String × List (ℚ × ℚ × Int)))
    (smap : List (String × List (List Int)))
    (out : List (List (String × List Int)))
    (hscale : 1 ≤ scale_n)
    (hok : assign_labels_to_longer_segs scale_n base smap = .ok out) :
    out.length = scale_n ∧
    ∀ i : Nat, ∀ s ∈ smap[i]?, ∀ q ∈ base.find? (fun e => e.1 == s.1),
      (out.getD (scale_n - 1) [])[i]? = some (s.1, q.2.map fun r => r.2.2) ∧
      ∀ k, k < scale_n - 1 →
        (out.getD k [])[i]? =
          some (s.1, assignScale (q.2.map fun r => r.2.2) (s.2.getD k [])) ∧
        ∀ seg ∈ pySetList (s.2.getD k []),
          (q.2.map fun r => r.2.2).length = (s.2.getD k []).length →
          isModeOf (pymode (maskSelect (q.2.map fun r => r.2.2) (s.2.getD k []) seg))
            (maskSelect (q.2.map fun r => r.2.2) (s.2.getD k []) seg) := by
  unfold assign_labels_to_longer_segs at hok
  cases hsess : assignSessions scale_n base smap with
  | error e =>
    rw [hsess] at hok
    cases hok
  | ok sessions =>
    rw [hsess] at hok
    cases hok
    obtain ⟨hlen, hidx⟩ := assignSessions_ok scale_n base smap sessions hsess
    have hout : ∀ k, k < scale_n →
        ((List.range scale_n).map fun k => sessions.map fun q => (q.1, q.2.getD k [])).getD k [] =
          sessions.map fun q => (q.1, q.2.getD k []) := by
      intro k hk
      rw [List.getD_eq_getElem?_getD, List.getElem?_map, List.getElem?_range hk]
      rfl
    refine ⟨by simp, ?_⟩
    intro i s hs q hq
    have hsession := hidx i s hs q hq
    have hassign : ∀ k, k < scale_n →
        (assignSession scale_n (q.2.map fun r => r.2.2) s.2).getD k [] =
          if k = scale_n - 1 then q.2.map fun r => r.2.2
          else assignScale (q.2.map fun r => r.2.2) (s.2.getD k []) := by
      intro k hk
      rw [assignSession, List.getD_eq_getElem?_getD, List.getElem?_map,
        List.getElem?_range hk]
      rfl
    constructor
    · rw [hout (scale_n - 1) (by omega), List.getElem?_map, hsession]
      simp only [Option.map_some']
      rw [hassign (scale_n - 1) (by omega), if_pos rfl]
    · intro k hk
      constructor
      · rw [hout k (by omega), List.getElem?_map, hsession]
        simp only [Option.map_some']
        rw [hassign k (by omega), if_neg (by omega)]
      · intro seg hseg hl
        apply pymode_isModeOf
        exact maskSelect_ne_nil _ _ _ hl ((mem_pySetList _ _).mp hseg)

/-- Witness for C4 at a concrete instance: one session with base labels
`[0, 0, 1]`, two scales, and a coarse scale whose three base segments map onto
the segments `0, 0, 1`; the coarse labels are `[0, 1]` and the base labels are
kept as `[0, 0, 1]`. -/
theorem assign_labels_to_longer_segs_spec_witness :
    1 ≤ 2 ∧
    assign_labels_to_longer_segs 2 [("s1", [((0 : ℚ), (1 : ℚ), (0 : Int)), (1, 2, 0), (2, 3, 1)])]
        [("s1", [[0, 0, 1]])] =
      .ok [[("s1", [0, 1])], [("s1", [0, 0, 1])]] ∧
    ([[("s1", [0, 1])], [("s1", [0, 0, 1])]] :
        List (List (String × List Int))).length = 2 ∧
    ∀ i : Nat, ∀ s ∈ ([("s1", [[0, 0, 1]])] : List (String × List (List Int)))[i]?,
      ∀ q ∈ ([("s1", [((0 : ℚ), (1 : ℚ), (0 : Int)), (1, 2, 0), (2, 3, 1)])] :
          List (String × List (ℚ × ℚ × Int))).find? (fun e => e.1 == s.1),
      (([[("s1", [0, 1])], [("s1", [0, 0, 1])]] :
          List (List (String × List Int))).getD (2 - 1) [])[i]? =
        some (s.1, q.2.map fun r => r.2.2) ∧
      ∀ k, k < 2 - 1 →
        (([[("s1", [0, 1])], [("s1", [0, 0, 1])]] :
            List (List (String × List Int))).getD k [])[i]? =
          some (s.1, assignScale (q.2.map fun r => r.2.2) (s.2.getD k [])) ∧
        ∀ seg ∈ pySetList (s.2.getD k []),
          (q.2.map fun r => r.2.2).length = (s.2.getD k []).length →
          isModeOf (pymode (maskSelect (q.2.map fun r => r.2.2) (s.2.getD k []) seg))
            (maskSelect (q.2.map fun r => r.2.2) (s.2.getD k []) seg) := by
  refine ⟨by omega, by rfl, ?_⟩
  exact assign_labels_to_longer_segs_spec 2 _ _ _ (by omega) (by rfl)

theorem foldl_zipWith_length (rows : List (List ℚ)) :
    ∀ acc : List ℚ, (∀ r ∈ rows, r.length = acc.length) →
      (rows.foldl (fun a b => a.zipWith (· + ·) b) acc).length = acc.length := by
  induction rows with
  | nil =>
    intro acc _
    rfl
  | cons r rs ih =>
    intro acc h
    simp only [List.foldl_cons]
    have hr : r.length = acc.length := h r (List.mem_cons_self _ _)
    have hz : (acc.zipWith (· + ·) r).length = acc.length := by
      rw [List.length_zipWith, hr]
      omega
    rw [ih (acc.zipWith (· + ·) r) (fun r' hr' => by rw [hz]; exact h r' (List.mem_cons_of_mem _ hr')), hz]

theorem length_vecMean (rows : List (List ℚ)) (dim : Nat)
    (h : ∀ r ∈ rows, r.length = dim) : (vecMean rows dim).length = dim := by
  have hz : (vecZeros dim).length = dim := by simp [vecZeros]
  rw [vecMean, List.length_map, vecSum,
    foldl_zipWith_length _ _ (fun r hr => by rw [hz]; exact h r hr), hz]

theorem maskSelectRows_subset (embs : List (List ℚ)) (labels : List Int) (spk : Int) :
    ∀ r ∈ maskSelectRows embs labels spk, r ∈ embs := by
  intro r hr
  rw [maskSelectRows, List.mem_filterMap] at hr
  obtain ⟨q, hq, hf⟩ := hr
  by_cases h2 : q.2 = spk
  · rw [if_pos h2] at hf
    cases hf
    exact (List.of_mem_zip (by rwa [← Prod.mk.eta (p := q)] at hq)).1
  · rw [if_neg h2] at hf
    cases hf

theorem get_clus_emb_fold (max_num_of_spks dim : Nat) (clus_label_list : List Int)
    (emb_tensor : List (List ℚ)) :
    ∀ (ss : List Int) (acc : List (List ℚ)),
      (∀ s ∈ ss, 0 ≤ s ∧ s < (max_num_of_spks : Int)) →
      acc.length = max_num_of_spks →
      ∃ res, (ss.foldlM (fun avg spk =>
          if -(max_num_of_spks : Int) ≤ spk ∧ spk < (max_num_of_spks : Int) then
            Except.ok (avg.set (spk % (max_num_of_spks : Int)).toNat
              (vecMean (maskSelectRows emb_tensor clus_label_list spk) dim))
          else
            Except.error "IndexError: speaker label out of bounds for avg_embs")
          acc : Except String (List (List ℚ))) = .ok res ∧
        res.length = max_num_of_spks ∧
        ∀ j : Nat, j < max_num_of_spks →
          res[j]? = if (j : Int) ∈ ss
            then some (vecMean (maskSelectRows emb_tensor clus_label_list (j : Int)) dim)
            else acc[j]? := by
  intro ss
  induction ss with
  | nil =>
    intro acc _ hacc
    refine ⟨acc, rfl, hacc, ?_⟩
    intro j hj
    simp
  | cons s ss ih =>
    intro acc hss hacc
    have hs := hss s (List.mem_cons_self _ _)
    have hcond : -(max_num_of_spks : Int) ≤ s ∧ s < (max_num_of_spks : Int) :=
      ⟨le_trans (by omega) hs.1, hs.2⟩
    have hmod : s % (max_num_of_spks : Int) = s := Int.emod_eq_of_lt hs.1 hs.2
    have htn : s.toNat < max_num_of_spks := by
      rw [← hacc] at *
      omega
    set v := vecMean (maskSelectRows emb_tensor clus_label_list s) dim with hv
    have hstep : (acc.set (s % (max_num_of_spks : Int)).toNat v).length = max_num_of_spks := by
      rw [List.length_set]
      exact hacc
    obtain ⟨res, h1, h2, h3⟩ :=
      ih (acc.set (s % (max_num_of_spks : Int)).toNat v)
        (fun x hx => hss x (List.mem_cons_of_mem _ hx)) hstep
    refine ⟨res, ?_, h2, ?_⟩
    · rw [List.foldlM_cons, if_pos hcond]
      exact h1
    · intro j hj
      rw [h3 j hj]
      by_cases hjss : (j : Int) ∈ ss
      · rw [if_pos hjss, if_pos (List.mem_cons_of_mem _ hjss)]
      · rw [if_neg hjss]
        by_cases hjs : (j : Int) = s
        · have hjn : s.toNat = j := by omega
          rw [if_pos (by rw [← hjs]; exact List.mem_cons_self _ _)]
          rw [hmod, hjn, List.getElem?_set_self (by omega), hv, hjs]
        · have hjn : s.toNat ≠ j := by omega
          rw [if_neg (by simp [hjs, hjss]), hmod, List.getElem?_set_ne hjn]

/-- C5 (amended): for every session and scale, if the number of distinct
cluster labels is at most `max_num_of_spks` (otherwise the assertion fails)
and, in addition, every label is a valid column index `0 ≤ l <
max_num_of_spks`, then `get_clus_emb` produces an `avg_embs` matrix of
`max_num_of_spks` columns of length `embedding_dim` in which the column of
each occurring speaker label is the mean of the embeddings of the segments
assigned that label, and every other column is zero. -/
theorem get_clus_emb_avg_spec (max_num_of_spks dim : Nat)
    (clus_label_list : List Int) (emb_tensor : List (List ℚ))
    (_hlen : emb_tensor.length = clus_label_list.length)
    (hdim : ∀ r ∈ emb_tensor, r.length = dim)
    (hcard : (pySetList clus_label_list).length ≤ max_num_of_spks)
    (hrange : ∀ l ∈ clus_label_list, 0 ≤ l ∧ l < (max_num_of_spks : Int)) :
    ∃ avg, get_clus_emb_avg max_num_of_spks dim clus_label_list emb_tensor = .ok avg ∧
      avg.length = max_num_of_spks ∧
      (∀ col ∈ avg, col.length = dim) ∧
      (∀ j : Nat, j < max_num_of_spks → (j : Int) ∈ clus_label_list →
        avg[j]? = some (vecMean (maskSelectRows emb_tensor clus_label_list (j : Int)) dim)) ∧
      (∀ j : Nat, j < max_num_of_spks → (j : Int) ∉ clus_label_list →
        avg[j]? = some (vecZeros dim)) := by
  obtain ⟨res, h1, h2, h3⟩ :=
    get_clus_emb_fold max_num_of_spks dim clus_label_list emb_tensor
      (pySetList clus_label_list)
      (List.replicate max_num_of_spks (vecZeros dim))
      (fun s hs => hrange s ((mem_pySetList _ _).mp hs))
      (List.length_replicate _ _)
  have hrepl : ∀ j : Nat, j < max_num_of_spks →
      (List.replicate max_num_of_spks (vecZeros dim))[j]? = some (vecZeros dim) :=
    fun j hj => List.getElem?_replicate_of_lt hj
  refine ⟨res, ?_, h2, ?_, ?_, ?_⟩
  · rw [get_clus_emb_avg, if_pos hcard]
    exact h1
  · intro col hcol
    obtain ⟨j, hj⟩ := List.mem_iff_getElem?.mp hcol
    have hjlt : j < max_num_of_spks := by
      by_contra hge
      rw [List.getElem?_eq_none (by omega)] at hj
      cases hj
    rw [h3 j hjlt] at hj
    by_cases hmem : (j : Int) ∈ pySetList clus_label_list
    · rw [if_pos hmem] at hj
      cases hj
      exact length_vecMean _ _ (fun r hr => hdim r (maskSelectRows_subset _ _ _ r hr))
    · rw [if_neg hmem, hrepl j hjlt] at hj
      cases hj
      exact List.length_replicate _ _
  · intro j hj hmem
    rw [h3 j hj, if_pos ((mem_pySetList _ _).mpr hmem)]
  · intro j hj hmem
    rw [h3 j hj, if_neg (fun h => hmem ((mem_pySetList _ _).mp h)), hrepl j hj]

/-- C5 as stated fails on the code: with `max_num_of_spks = 2` and the single
cluster label `2`, the number of distinct labels (1) satisfies the claimed
precondition, yet the column assignment `avg_embs[:, 2]` raises `IndexError`
instead of producing the matrix. -/
theorem get_clus_emb_avg_counterexample :
    (pySetList [2]).length ≤ 2 ∧
    get_clus_emb_avg 2 1 [2] [[(1 : ℚ)]] =
      .error "IndexError: speaker label out of bounds for avg_embs" :=
  ⟨by decide, by rfl⟩

/-- Witness for C5 (amended) at a concrete instance: labels `[0, 0, 1]` with
embeddings `[1], [2], [4]` of dimension 1 and `max_num_of_spks = 2`. -/
theorem get_clus_emb_avg_spec_witness :
    (∀ r ∈ ([[(1 : ℚ)], [2], [4]] : List (List ℚ)), r.length = 1) ∧
    (pySetList [0, 0, 1]).length ≤ 2 ∧
    ∃ avg, get_clus_emb_avg 2 1 [0, 0, 1] [[(1 : ℚ)], [2], [4]] = .ok avg ∧
      avg.length = 2 ∧
      (∀ col ∈ avg, col.length = 1) ∧
      (∀ j : Nat, j < 2 → (j : Int) ∈ ([0, 0, 1] : List Int) →
        avg[j]? = some (vecMean (maskSelectRows [[(1 : ℚ)], [2], [4]] [0, 0, 1] (j : Int)) 1)) ∧
      (∀ j : Nat, j < 2 → (j : Int) ∉ ([0, 0, 1] : List Int) →
        avg[j]? = some (vecZeros 1)) := by
  refine ⟨?_, by decide, ?_⟩
  · intro r hr
    fin_cases hr <;> rfl
  · exact get_clus_emb_avg_spec 2 1 [0, 0, 1] [[(1 : ℚ)], [2], [4]] rfl
      (by intro r hr; fin_cases hr <;> rfl) (by decide) (by decide)

end TsVad

namespace PromptTable

/-- C7: for a `PromptEmbedding` with `total_soft_tokens` rows of size
`hidden_size` and dropout probability 0, `forward` takes no input and returns
the full table of soft prompt vectors: `total_soft_tokens` rows, each of length
`hidden_size`, whose `i`-th row equals row `i` of the embedding table for
`i = 0 .. total_soft_tokens - 1` in order. -/
theorem prompt_embedding_forward_spec (weight : List (List ℚ))
    (total_soft_tokens hidden_size : Nat)
    (hlen : weight.length = total_soft_tokens)
    (hrow : ∀ row ∈ weight, row.length = hidden_size) :
    (promptEmbeddingForward weight total_soft_tokens).length = total_soft_tokens ∧
    (∀ row ∈ promptEmbeddingForward weight total_soft_tokens, row.length = hidden_size) ∧
    ∀ i : Nat, i < total_soft_tokens →
      (promptEmbeddingForward weight total_soft_tokens)[i]? = weight[i]? := by
  refine ⟨by simp [promptEmbeddingForward, dropoutZero, promptEmbeddingIndices], ?_, ?_⟩
  · intro row hmem
    simp only [promptEmbeddingForward, dropoutZero, promptEmbeddingIndices,
      List.mem_map, List.mem_range] at hmem
    obtain ⟨i, hi, rfl⟩ := hmem
    have hi' : i < weight.length := by omega
    have : weight.getD i [] = weight[i] := by
      simp [List.getD_eq_getElem?_getD, List.getElem?_eq_getElem hi']
    rw [this]
    exact hrow _ (List.getElem_mem hi')
  · intro i hi
    have hi' : i < weight.length := by omega
    simp [promptEmbeddingForward, dropoutZero, promptEmbeddingIndices,
      List.getElem?_map, List.getElem?_range, hi,
      List.getD_eq_getElem?_getD, List.getElem?_eq_getElem hi']

/-- Witness for C7 at a concrete table: two soft tokens of hidden size 2. -/
theorem prompt_embedding_forward_spec_witness :
    (promptEmbeddingForward [[(1 : ℚ), 2], [3, 4]] 2).length = 2 ∧
    (promptEmbeddingForward [[(1 : ℚ), 2], [3, 4]] 2)[0]? = some [1, 2] := by
  have h := prompt_embedding_forward_spec [[(1 : ℚ), 2], [3, 4]] 2 2 rfl
    (by intro row hmem; fin_cases hmem <;> rfl)
  exact ⟨h.1, by rw [h.2.2 0 (by decide)]; rfl⟩

/-- C9 counter-evidence: `remove_prompt` raises `NameError` on a concrete
table even for a task name that is absent from it, instead of returning
silently. -/
theorem remove_prompt_raises_name_error :
    removePrompt ⟨[("task0", [[1]])], [(0, "task0")]⟩ "absent" =
      .error "NameError: name 'prompt_table' is not defined" :=
  rfl

end PromptTable

namespace PunctuateCapitalize

/-- C3 fails on the code: `segment_start` is initialised once, before the loop
over queries, and never reset inside it, so it carries over from one query to
the next.  On two queries of 3 and 5 words with `max_seq_length = 1` and
`step = 1`, the first query leaves `segment_start = 2`, so the second query's
recorded segment starts are `[2, 3]` — they do not begin at word 0, and the
second query's first two words are never emitted in any segment. -/
theorem split_into_segments_start_carries_over :
    split_into_segments [["a", "b", "c"], ["d", "e", "f", "g", "h"]] 1 1 =
      ([["a"], ["b"], ["f"], ["g"]], [0, 0, 1, 1], [0, 1, 2, 3]) := by
  rfl

/-- Counts accumulated by `update_label_counter` are always at least 1. -/
theorem update_label_counter_count_pos (counter : List (String × Int × Int))
    (lbl : String) (n w : Int) (hpos : ∀ v ∈ counter, 1 ≤ v.2.1) :
    ∀ v ∈ update_label_counter counter lbl n w, 1 ≤ v.2.1 := by
  intro v hv
  unfold update_label_counter at hv
  by_cases hmem : counter.any (fun e => e.1 == lbl)
  · simp only [hmem, if_true, List.mem_map] at hv
    obtain ⟨e, he, rfl⟩ := hv
    by_cases h : e.1 == lbl
    · simp only [h, if_true]
      have := hpos e he
      omega
    · simp only [h, if_neg, Bool.false_eq_true, if_false]
      exact hpos e he
  · simp only [hmem, if_false, Bool.false_eq_true, List.mem_append,
      List.mem_singleton] at hv
    rcases hv with hv | rfl
    · exact hpos v hv
    · simp

theorem ratioLE_trans : ∀ a b c, ratioLE a b → ratioLE b c → ratioLE a c := by
  intro a b c hab hbc
  simp only [ratioLE, decide_eq_true_eq] at *
  exact le_trans hbc hab

theorem ratioLE_total : ∀ a b, ratioLE a b || ratioLE b a := by
  intro a b
  simp only [ratioLE, Bool.or_eq_true, decide_eq_true_eq]
  exact le_total _ _

theorem countLE_trans : ∀ a b c, countLE a b → countLE b c → countLE a c := by
  intro a b c hab hbc
  simp only [countLE, decide_eq_true_eq] at *
  exact le_trans hbc hab

theorem countLE_total : ∀ a b, countLE a b || countLE b a := by
  intro a b
  simp only [countLE, Bool.or_eq_true, decide_eq_true_eq]
  exact le_total _ _

/-- C2: for every non-empty vote dictionary with counts accumulated by
`update_label_counter` (so every count is at least 1), `select_best_label`
returns the label of an entry of the dictionary whose count is maximal, and
whose ratio `score / count` is greatest among the entries of maximal count:
the most frequent prediction wins the vote. -/
theorem select_best_label_spec (votes : List (String × Int × Int))
    (hne : votes ≠ []) (_hpos : ∀ v ∈ votes, 1 ≤ v.2.1) :
    ∃ best ∈ votes,
      select_best_label votes = some best.1 ∧
      (∀ v ∈ votes, v.2.1 ≤ best.2.1) ∧
      (∀ v ∈ votes, v.2.1 = best.2.1 →
        (v.2.2 : ℚ) / (v.2.1 : ℚ) ≤ (best.2.2 : ℚ) / (best.2.1 : ℚ)) := by
  classical
  set L1 := votes.mergeSort ratioLE with hL1
  set L2 := L1.mergeSort countLE with hL2
  have hperm2 : List.Perm L2 L1 := List.mergeSort_perm L1 countLE
  have hperm1 : List.Perm L1 votes := List.mergeSort_perm votes ratioLE
  have hlen : L2.length = votes.length := by rw [hperm2.length_eq, hperm1.length_eq]
  have hL2ne : L2 ≠ [] := by
    intro h
    apply hne
    rw [h] at hlen
    exact List.eq_nil_of_length_eq_zero hlen.symm
  obtain ⟨b, t, hbt⟩ := List.exists_cons_of_ne_nil hL2ne
  have hbL2 : b ∈ L2 := by rw [hbt]; exact List.mem_cons_self b t
  have hbvotes : b ∈ votes := hperm1.mem_iff.mp (hperm2.mem_iff.mp hbL2)
  have hs2 : L2.Pairwise (fun x y => countLE x y) :=
    List.sorted_mergeSort countLE_trans countLE_total L1
  have hs1 : L1.Pairwise (fun x y => ratioLE x y) :=
    List.sorted_mergeSort ratioLE_trans ratioLE_total votes
  -- the stable sublist of entries whose count ties with the head
  set p : String × Int × Int → Bool := fun v => v.2.1 == b.2.1 with hp
  set c := L1.filter p with hc
  have hcpair : c.Pairwise (fun x y => countLE x y) := by
    apply List.pairwise_of_forall_mem_list
    intro x hx y hy
    have hx' := (List.mem_filter.mp hx).2
    have hy' := (List.mem_filter.mp hy).2
    simp only [hp, beq_iff_eq] at hx' hy'
    simp only [countLE, hx', hy', decide_eq_true_eq, le_refl]
  have hcsub : List.Sublist c L2 :=
    List.sublist_mergeSort countLE_trans countLE_total hcpair (List.filter_sublist L1)
  have hcperm : List.Perm c (L2.filter p) := (hperm2.symm).filter p
  have hcsubf : List.Sublist c (L2.filter p) := by
    have h1 : List.Sublist (c.filter p) (L2.filter p) := hcsub.filter p
    have h2 : c.filter p = c := by
      rw [hc, List.filter_filter]
      simp
    rwa [h2] at h1
  have hceq : c = L2.filter p := hcsubf.eq_of_length hcperm.length_eq
  have hpb : p b = true := by simp [hp]
  have hcform : c = b :: t.filter p := by
    rw [hceq, hbt, List.filter_cons_of_pos hpb]
  have hcratio : c.Pairwise (fun x y => ratioLE x y) := hs1.filter p
  refine ⟨b, hbvotes, ?_, ?_, ?_⟩
  · simp only [select_best_label, ← hL1, ← hL2, hbt, List.head?_cons]
    rfl
  · intro v hv
    have hvL2 : v ∈ L2 := hperm2.mem_iff.mpr (hperm1.mem_iff.mpr hv)
    rw [hbt] at hvL2
    rcases List.mem_cons.mp hvL2 with rfl | hvt
    · exact le_refl _
    · have := (List.pairwise_cons.mp (hbt ▸ hs2)).1 v hvt
      simpa [countLE, decide_eq_true_eq] using this
  · intro v hv hveq
    have hvL1 : v ∈ L1 := hperm1.mem_iff.mpr hv
    have hvc : v ∈ c := by
      rw [hc]
      exact List.mem_filter.mpr ⟨hvL1, by simp [hp, hveq]⟩
    rw [hcform] at hvc
    rcases List.mem_cons.mp hvc with rfl | hvt
    · exact le_refl _
    · have := (List.pairwise_cons.mp (hcform ▸ hcratio)).1 v hvt
      simpa [ratioLE, decide_eq_true_eq] using this

/-- Witness for C2 at a concrete vote dictionary: among
`A ↦ (1, 5)`, `B ↦ (2, 2)`, `C ↦ (2, 6)` the counts 2 are maximal and among
those `C` has the larger ratio. -/
theorem select_best_label_spec_witness :
    ([("A", ((1 : Int), (5 : Int))), ("B", (2, 2)), ("C", (2, 6))] :
        List (String × Int × Int)) ≠ [] ∧
    ∃ best ∈ ([("A", ((1 : Int), (5 : Int))), ("B", (2, 2)), ("C", (2, 6))] :
        List (String × Int × Int)),
      select_best_label [("A", (1, 5)), ("B", (2, 2)), ("C", (2, 6))] = some best.1 ∧
      (∀ v ∈ ([("A", ((1 : Int), (5 : Int))), ("B", (2, 2)), ("C", (2, 6))] :
        List (String × Int × Int)), v.2.1 ≤ best.2.1) ∧
      (∀ v ∈ ([("A", ((1 : Int), (5 : Int))), ("B", (2, 2)), ("C", (2, 6))] :
        List (String × Int × Int)), v.2.1 = best.2.1 →
        (v.2.2 : ℚ) / (v.2.1 : ℚ) ≤ (best.2.2 : ℚ) / (best.2.1 : ℚ)) :=
  ⟨by decide, select_best_label_spec _ (by decide) (by decide)⟩

end PunctuateCapitalize

namespace PunctuationFst

/-- Splitting around the first occurrence of a marker character: if neither
prefix contains the marker, the two decompositions coincide. -/
theorem marker_split {c : Char} :
    ∀ (xs ys u v : List Char), (∀ a ∈ xs, a ≠ c) → (∀ a ∈ ys, a ≠ c) →
      xs ++ c :: u = ys ++ c :: v → xs = ys ∧ u = v
  | [], [], u, v, _, _, h => by
    simp only [List.nil_append, List.cons.injEq] at h
    exact ⟨rfl, h.2⟩
  | [], y :: ys, u, v, _, hy, h => by
    simp only [List.nil_append, List.cons_append, List.cons.injEq] at h
    exact absurd h.1.symm (hy y (List.mem_cons_self _ _))
  | x :: xs, [], u, v, hx, _, h => by
    simp only [List.nil_append, List.cons_append, List.cons.injEq] at h
    exact absurd h.1 (hx x (List.mem_cons_self _ _))
  | x :: xs, y :: ys, u, v, hx, hy, h => by
    simp only [List.cons_append, List.cons.injEq] at h
    obtain ⟨rfl, h2⟩ := h
    obtain ⟨h3, h4⟩ := marker_split xs ys u v
      (fun a ha => hx a (List.mem_cons_of_mem _ ha))
      (fun a ha => hy a (List.mem_cons_of_mem _ ha)) h2
    exact ⟨by rw [h3], h4⟩

/-- C6: for every non-empty punctuation symbol `p` containing no double quote,
optional single space `sp`, and suffix `s` over characters excluding the
closing curly brace, the transducer relates the input
`name:` ++ `sp` ++ quote ++ `p` ++ quote ++ ` pause_length` ++ `s`
to exactly `p` — it deletes the `name:` wrapper, the quotes and everything
from ` pause_length` onward, and to no other output. -/
theorem punctuation_fst_spec (p s sp : List Char)
    (hp : p ≠ []) (hpq : ∀ a ∈ p, a ≠ '"') (hs : ∀ a ∈ s, a ≠ '\x7d')
    (hsp : sp = [] ∨ sp = [' ']) :
    ∀ y : List Char,
      ("name:".toList ++ (sp ++ ('"' :: (p ++ ('"' :: (" pause_length".toList ++ s))))), y) ∈
          punctuationFst ↔
        y = p := by
  have hspc : ∀ a ∈ sp, a = ' ' := by
    rcases hsp with rfl | rfl <;> simp
  intro y
  constructor
  · intro h
    simp only [punctuationFst, cat, del, delAny, keepPlus, delete_space, notQuote,
      notRBrace, Set.mem_setOf_eq] at h
    obtain ⟨x1, y1, x2, y2, ⟨hx1, hy1⟩, h, hin1, hout1⟩ := h
    obtain ⟨x3, y3, x4, y4, ⟨hx3, hy3⟩, h, hin2, hout2⟩ := h
    obtain ⟨x5, y5, x6, y6, ⟨hx5, hy5⟩, h, hin3, hout3⟩ := h
    obtain ⟨x7, y7, x8, y8, ⟨hx7ne, hx7q, hy7⟩, h, hin4, hout4⟩ := h
    obtain ⟨x9, y9, x10, y10, ⟨hx9, hy9⟩, ⟨hx10, hy10⟩, hin5, hout5⟩ := h
    subst hx1 hx5 hx9
    rw [hin5] at hin4
    rw [hin4] at hin3
    rw [hin3] at hin2
    rw [hin2] at hin1
    simp only [List.append_assoc, List.cons_append, List.singleton_append,
      List.nil_append] at hin1
    have hrest := List.append_cancel_left hin1
    have h1 := marker_split (c := '"') sp x3
      (p ++ ('"' :: (" pause_length".toList ++ s)))
      (x7 ++ ('"' :: (" pause_length".toList ++ x10)))
      (fun a ha => by rw [hspc a ha]; decide)
      (fun a ha => by rw [hx3 a ha]; decide)
      (by simpa [List.append_assoc] using hrest)
    have h2 := marker_split (c := '"') p x7 (" pause_length".toList ++ s)
      (" pause_length".toList ++ x10) hpq hx7q
      (by simpa [List.append_assoc] using h1.2)
    rw [hout5, hy9, hy10] at hout4
    rw [hout4, hy7] at hout3
    rw [hout3, hy5] at hout2
    rw [hout2, hy3] at hout1
    rw [hout1, hy1]
    simp [h2.1]
  · intro hy
    rw [hy]
    refine ⟨"name:".toList, [],
      sp ++ ('"' :: (p ++ ('"' :: (" pause_length".toList ++ s)))), p,
      ⟨rfl, rfl⟩, ?_, rfl, rfl⟩
    refine ⟨sp, [], '"' :: (p ++ ('"' :: (" pause_length".toList ++ s))), p,
      ⟨hspc, rfl⟩, ?_, rfl, rfl⟩
    refine ⟨['"'], [], p ++ ('"' :: (" pause_length".toList ++ s)), p,
      ⟨rfl, rfl⟩, ?_, rfl, rfl⟩
    refine ⟨p, p, '"' :: (" pause_length".toList ++ s), [],
      ⟨hp, hpq, rfl⟩, ?_, rfl, by simp⟩
    refine ⟨'"' :: " pause_length".toList, [], s, [],
      ⟨rfl, rfl⟩, ⟨hs, rfl⟩, by simp, rfl⟩

/-- Witness for C6 at a concrete token: the comma verbalization
`name: "," pause_length: "PAUSE_MEDIUM..."` maps to `,`. -/
theorem punctuation_fst_spec_witness :
    ("name:".toList ++ ([' '] ++ ('"' :: ([','] ++ ('"' :: (" pause_length".toList ++
        ": PAUSE_MEDIUM phrase_break: true type: PUNCT".toList))))),
      [',']) ∈ punctuationFst :=
  (punctuation_fst_spec [','] ": PAUSE_MEDIUM phrase_break: true type: PUNCT".toList
    [' '] (by decide) (by decide) (by decide) (Or.inr rfl) [',']).mpr rfl

end PunctuationFst
